import Mathlib

/-
Verification of the Tecnaria QA bot (backend pipeline in app.py, front-end
wizard scripts).  Strings are modelled as `List Char`; CPython string
operations (`strip`, `lower`, `replace`, slicing) and the two fixed regular
expressions of the refiner are embedded as executable Lean functions.
Recursion that is not structural uses an explicit fuel argument equal to the
input length, so every definition evaluates by kernel reduction.
-/

set_option maxRecDepth 100000

namespace Tecnaria

/-- Character list of a string literal. -/
def lit (s : String) : List Char := s.data

/-- The whitespace class of CPython `str.strip` / regex `\s` restricted to
ASCII (space, tab, newline, carriage return, vertical tab, form feed). -/
def pyWs (c : Char) : Bool :=
  c = ' ' || c = '\t' || c = '\n' || c = '\r' || c = '\x0b' || c = '\x0c'

/-- `lstartsWith pat l` is true when `pat` is a prefix of `l`. -/
def lstartsWith : List Char → List Char → Bool
  | [], _ => true
  | _ :: _, [] => false
  | p :: ps, c :: cs => p == c && lstartsWith ps cs

/-- Case-insensitive prefix test (ASCII lowering, as in the `re.IGNORECASE`
patterns of the source). -/
def lstartsWithCI : List Char → List Char → Bool
  | [], _ => true
  | _ :: _, [] => false
  | p :: ps, c :: cs => p.toLower == c.toLower && lstartsWithCI ps cs

/-- Substring occurrence test, the Python `in` operator on strings. -/
def hasSub (pat : List Char) : List Char → Bool
  | [] => lstartsWith pat []
  | c :: rest => lstartsWith pat (c :: rest) || hasSub pat rest

/-- Case-insensitive substring occurrence test. -/
def hasSubCI (pat : List Char) : List Char → Bool
  | [] => lstartsWithCI pat []
  | c :: rest => lstartsWithCI pat (c :: rest) || hasSubCI pat rest

/-- Number of positions at which `pat` occurs in the text. -/
def countSub (pat : List Char) : List Char → Nat
  | [] => if lstartsWith pat [] then 1 else 0
  | c :: rest =>
    (if lstartsWith pat (c :: rest) then 1 else 0) + countSub pat rest

/-- Python `str.lstrip()`. -/
def trimL (l : List Char) : List Char := l.dropWhile pyWs

/-- Python `str.rstrip()`. -/
def trimR (l : List Char) : List Char := (l.reverse.dropWhile pyWs).reverse

/-- Python `str.strip()`. -/
def pyStrip (l : List Char) : List Char := trimR (trimL l)

/-- Python `str.lower()` on ASCII text. -/
def lowerL (l : List Char) : List Char := l.map Char.toLower

/-- Python `str.endswith("\n")`. -/
def endsWithNL (l : List Char) : Bool := l.getLast? == some '\n'

/-- Split off the first line: returns the line including its terminating
newline (or the whole text when there is none) together with the rest. -/
def takeLine : List Char → List Char × List Char
  | [] => ([], [])
  | c :: rest =>
    if c = '\n' then ([c], rest)
    else
      let p := takeLine rest
      (c :: p.1, p.2)

/-- Drop characters up to and including the first occurrence of `t`;
`none` when `t` does not occur. -/
def dropThroughChar (t : Char) : List Char → Option (List Char)
  | [] => none
  | c :: rest => if c = t then some rest else dropThroughChar t rest

/-- Suffix check, Python `str.endswith`. -/
def lEndsWith (pat l : List Char) : Bool := lstartsWith pat.reverse l.reverse

/-! ## Text refiner (`refine_text` in app.py) -/

/-- One attempted match of the header pattern
`^OK\s*-?\s*(Riferimento|Sintesi).*?\n` (flags `re.I | re.M`) at a line
start: after a case-insensitive `OK`, the backtracking regex engine can only
take the maximal whitespace run, an optional dash, another maximal
whitespace run, then one of the two keywords, and the lazy `.*?\n` ends the
match right after the next newline.  Returns the text after the match, or
`none` when the pattern does not match here. -/
def okHeaderRest (l : List Char) : Option (List Char) :=
  if lstartsWithCI (lit "ok") l then
    let l1 := (l.drop 2).dropWhile pyWs
    let l2 := match l1 with
      | '-' :: r => r.dropWhile pyWs
      | _ => l1
    if lstartsWithCI (lit "riferimento") l2 then dropThroughChar '\n' (l2.drop 11)
    else if lstartsWithCI (lit "sintesi") l2 then dropThroughChar '\n' (l2.drop 7)
    else none
  else none

/-- The single left-to-right pass of
`re.sub(r"^OK\s*-?\s*(Riferimento|Sintesi).*?\n", "", text, flags=re.I|re.M)`:
at each line start either the header pattern matches and the matched span is
deleted (scanning resumes after it, again at a line start), or the line is
copied verbatim.  The fuel argument bounds the recursion; each step consumes
at least one character, so fuel equal to the length is always enough. -/
def stripHAux : Nat → List Char → List Char
  | 0, l => l
  | _ + 1, [] => []
  | fuel + 1, c :: rest =>
    match okHeaderRest (c :: rest) with
    | some r => stripHAux fuel r
    | none =>
      let p := takeLine (c :: rest)
      p.1 ++ stripHAux fuel p.2

/-- The header-stripping substitution of `refine_text`. -/
def stripHeaders (l : List Char) : List Char := stripHAux l.length l

/-- The sources marker `**Fonti**`. -/
def fontiMark : List Char := lit "**Fonti**"

/-- `text.replace("**Fonti**", "\n\n**Fonti**")`: leftmost, non-overlapping,
the replacement itself is not rescanned. -/
def fontiBreakAux : Nat → List Char → List Char
  | 0, l => l
  | _ + 1, [] => []
  | fuel + 1, c :: rest =>
    if lstartsWith fontiMark (c :: rest) then
      lit "\n\n**Fonti**" ++ fontiBreakAux fuel ((c :: rest).drop 9)
    else c :: fontiBreakAux fuel rest

/-- The `**Fonti**` normalisation of `refine_text`. -/
def fontiBreak (l : List Char) : List Char := fontiBreakAux l.length l

/-- The fixed lead sentence of `refine_text`. -/
def leadText : List Char :=
  lit "Ecco le informazioni richieste, in modo chiaro e sintetico.\nPer verifiche di progetto approfondite possiamo lavorare sui dati reali del cantiere."

/-- `refine_text` from app.py: empty text maps to empty text; otherwise the
`OK - Riferimento/Sintesi` header lines are removed, the `**Fonti**` marker
gets a blank line in front, and unless the stripped body already begins
(case-insensitively) with `ecco le informazioni` the lead sentence is
prepended. -/
def refine_text (t : List Char) : List Char :=
  if t = [] then []
  else
    let t1 := stripHeaders t
    let t2 := fontiBreak t1
    let body := pyStrip t2
    if lstartsWith (lit "ecco le informazioni") (lowerL body) then body
    else pyStrip (leadText ++ lit "\n\n" ++ body)

/-! ## Response composer (`compose_final` in app.py) -/

/-- `compose_final` from app.py: strips the answer; with a non-empty source
list it appends a `- url` line per source under a `**Fonti**` heading, after
a single newline when the marker already occurs in the answer and after a
blank line otherwise. -/
def compose_final (answer : List Char) (sources : List (List Char)) : List Char :=
  let a := pyStrip answer
  if sources = [] then a
  else
    let src := List.intercalate (lit "\n") (sources.map (fun u => lit "- " ++ u))
    if hasSub fontiMark a then
      let a2 := if endsWithNL (pyStrip a) then a else a ++ lit "\n"
      a2 ++ fontiMark ++ lit "\n" ++ src ++ lit "\n"
    else
      a ++ lit "\n\n" ++ fontiMark ++ lit "\n" ++ src ++ lit "\n"

/-! ## Sinapsi rules (`Rule`, `sinapsi_apply` in app.py) -/

/-- A loaded Sinapsi rule; the compiled case-insensitive regex is embedded
as its matching function on the question string. -/
structure Rule where
  id : List Char
  pattern : List Char → Bool
  mode : List Char
  lang : List Char
  answer : List Char

/-- The scanning loop of `sinapsi_apply`: `acc` is the running
`applied_id`, overwritten at every pattern match; a matched rule with mode
`override`, `augment` or `postscript` returns immediately, any other
matched mode only records the id and the scan continues. -/
def sinapsiGo (q base : List Char) : Option (List Char) → List Rule → List Char × Option (List Char)
  | acc, [] => (base, acc)
  | acc, r :: rs =>
    if r.pattern q then
      if r.mode = lit "override" then (refine_text r.answer, some r.id)
      else if r.mode = lit "augment" then
        let merged := pyStrip base
        let addon := pyStrip (refine_text r.answer)
        if merged = [] then (addon, some r.id)
        else (trimR merged ++ lit "\n\n" ++ addon, some r.id)
      else if r.mode = lit "postscript" then
        (pyStrip base ++ lit "\n\n*Nota tecnica (Sinapsi)*\n" ++ pyStrip (refine_text r.answer), some r.id)
      else sinapsiGo q base (some r.id) rs
    else sinapsiGo q base acc rs

/-- `sinapsi_apply` from app.py: apply the first matched rule to the base
draft, returning the final text and the applied rule id. -/
def sinapsi_apply (rules : List Rule) (q base : List Char) : List Char × Option (List Char) :=
  sinapsiGo q base none rules

/-! ## Web search adapter (`allowed_domain`, `brave_search`, `bing_search`) -/

/-- Text after the first occurrence of `"://"`. -/
def afterMarker : List Char → Option (List Char)
  | [] => none
  | c :: rest =>
    if lstartsWith (lit "://") (c :: rest) then some ((c :: rest).drop 3)
    else afterMarker rest

/-- `urlparse(url).netloc.lower()` for the `scheme://host/...` URLs the
providers return: the text between `"://"` and the next `/`, `?` or `#`,
lowercased; empty when the URL has no `"://"`. -/
def hostOf (url : List Char) : List Char :=
  match afterMarker url with
  | none => []
  | some r => lowerL (r.takeWhile (fun c => !(c = '/' || c = '?' || c = '#')))

/-- `allowed_domain` from app.py: the host is a suffix of no preferred
domain ... i.e. some preferred domain is a suffix of the host. -/
def allowed_domain (url : List Char) (prefer : List (List Char)) : Bool :=
  prefer.any (fun d => lEndsWith (lowerL d) (hostOf url))

/-- A raw entry of the provider's JSON result list (for Brave the fields
`title`/`url`/`description`, for Bing `name`/`url`/`snippet`). -/
structure WebItem where
  title : List Char
  url : List Char
  snippet : List Char

/-- A filtered search result as built by the adapters; `score` is the fixed
relevance (the source's float literals 0.75 / 0.70, scaled by 100; it is
never read by any later stage). -/
structure WebResult where
  title : List Char
  url : List Char
  snippet : List Char
  score : Nat

/-- `brave_search` from app.py.  Network and JSON decoding are modelled by
the transport outcome: `key` is `BRAVE_API_KEY`, `status` the HTTP status of
the search call and `items` the decoded result list (`none` = JSON parse
failure).  An unset or empty key, a non-200 status or a parse failure yield
`[]`; otherwise the results are filtered by `allowed_domain`. -/
def brave_search (key : Option (List Char)) (status : Nat)
    (items : Option (List WebItem)) (prefer : List (List Char)) : List WebResult :=
  if key.getD [] = [] then []
  else if status ≠ 200 then []
  else match items with
    | none => []
    | some its =>
      (its.filter (fun i => allowed_domain i.url prefer)).map
        (fun i => ⟨i.title, i.url, i.snippet, 75⟩)

/-- `bing_search` from app.py, same shape as `brave_search` with
`BING_API_KEY` and score 0.70. -/
def bing_search (key : Option (List Char)) (status : Nat)
    (items : Option (List WebItem)) (prefer : List (List Char)) : List WebResult :=
  if key.getD [] = [] then []
  else if status ≠ 200 then []
  else match items with
    | none => []
    | some its =>
      (its.filter (fun i => allowed_domain i.url prefer)).map
        (fun i => ⟨i.title, i.url, i.snippet, 70⟩)

/-! ## HTML cleaner and snippet synthesizer -/

/-- One tag of `re.sub(r"<[^>]+>", " ", raw)`: after a `<`, at least one
non-`>` character and then a `>`; returns the rest after the `>`. -/
def tagRest : List Char → Option (List Char)
  | [] => none
  | c :: rest => if c = '>' then none else dropThroughChar '>' rest

/-- The tag-removing substitution `re.sub(r"<[^>]+>", " ", raw)`. -/
def stripTagsAux : Nat → List Char → List Char
  | 0, l => l
  | _ + 1, [] => []
  | fuel + 1, c :: rest =>
    if c = '<' then
      match tagRest rest with
      | some r => ' ' :: stripTagsAux fuel r
      | none => c :: stripTagsAux fuel rest
    else c :: stripTagsAux fuel rest

/-- `re.sub(r"\s+", " ", txt)`: every maximal whitespace run becomes one
space. -/
def collapseWs1Aux : Nat → List Char → List Char
  | 0, l => l
  | _ + 1, [] => []
  | fuel + 1, c :: rest =>
    if pyWs c then ' ' :: collapseWs1Aux fuel (rest.dropWhile pyWs)
    else c :: collapseWs1Aux fuel rest

/-- `re.sub(r"\s{2,}", " ", txt)`: every maximal whitespace run of length at
least two becomes one space, single whitespace characters stay as they are. -/
def collapseWs2Aux : Nat → List Char → List Char
  | 0, l => l
  | _ + 1, [] => []
  | fuel + 1, c :: rest =>
    if pyWs c then
      match rest with
      | c2 :: _ =>
        if pyWs c2 then ' ' :: collapseWs2Aux fuel (rest.dropWhile pyWs)
        else c :: collapseWs2Aux fuel rest
      | [] => [c]
    else c :: collapseWs2Aux fuel rest

/-- `clean_html_text` from app.py in the regex-fallback branch
(BeautifulSoup absent): tags replaced by spaces, entities unescaped (the
external `html.unescape` is the oracle `unescape`), whitespace collapsed,
ends stripped.  Empty input maps to empty output. -/
def clean_html_text (unescape : List Char → List Char) (raw : List Char) : List Char :=
  if raw = [] then []
  else
    let txt := unescape (stripTagsAux raw.length raw)
    pyStrip (collapseWs1Aux txt.length txt)

/-- `re.split(r"(?<=[\.\!\?])\s+", joined)`: split at every maximal
whitespace run directly preceded by `.`, `!` or `?`. -/
def splitSentAux : Nat → List Char → List Char → List (List Char)
  | 0, cur, l => [cur.reverse ++ l]
  | _ + 1, cur, [] => [cur.reverse]
  | fuel + 1, cur, c :: rest =>
    if (c = '.' || c = '!' || c = '?') &&
        (match rest with | c2 :: _ => pyWs c2 | [] => false) then
      (c :: cur).reverse :: splitSentAux fuel [] (rest.dropWhile pyWs)
    else splitSentAux fuel (c :: cur) rest

/-- The fixed technical keyword list of `synthesize_snippets`. -/
def keywordList : List (List Char) :=
  [lit "CTF", lit "lamiera", lit "P560", lit "HSBR", lit "Diapason", lit "ETA",
   lit "connettore", lit "soletta", lit "laterocemento", lit "Hi-Bond",
   lit "Tecnaria", lit "SPIT"]

/-- `list(dict.fromkeys(sources))`: de-duplication keeping the first
occurrence of each element. -/
def pyDedupAux : List (List Char) → List (List Char) → List (List Char)
  | _, [] => []
  | seen, u :: rest =>
    if u ∈ seen then pyDedupAux seen rest
    else u :: pyDedupAux (u :: seen) rest

/-- The per-result accumulation step of `synthesize_snippets`: fetch the
page (the network is the oracle `fetch`), clean it, fall back to the result
snippet, and record body and source URL when non-empty. -/
def synthStep (fetch unescape : List Char → List Char)
    (acc : List (List Char) × List (List Char)) (s : WebResult) :
    List (List Char) × List (List Char) :=
  let page := fetch s.url
  let b := clean_html_text unescape page
  let body := if b = [] then clean_html_text unescape s.snippet else b
  if body = [] then acc
  else (acc.1 ++ [body.take 1500], acc.2 ++ [s.url])

/-- `synthesize_snippets` from app.py: fetch and clean each filtered result,
join the first 1500 characters of each body, keep the sentences containing a
technical keyword (case-insensitively), truncate, collapse whitespace, and
return the draft together with the de-duplicated source URLs capped at 5. -/
def synthesize_snippets (fetch unescape : List Char → List Char)
    (snips : List WebResult) (_q : List Char) : List Char × List (List Char) :=
  if snips.isEmpty then ([], [])
  else
    let bs := snips.foldl (synthStep fetch unescape) ([], [])
    if bs.1 = [] then ([], bs.2)
    else
      let joined := (List.intercalate (lit " ") bs.1).take 4000
      let sentences := splitSentAux joined.length [] joined
      let keep := sentences.filter
        (fun s => keywordList.any (fun k => hasSub (lowerL k) (lowerL s)))
      let draft0 := (List.intercalate (lit " ") keep).take 1200
      let draft1 := if draft0 = [] then joined.take 800 else draft0
      (pyStrip (collapseWs2Aux draft1.length draft1), (pyDedupAux [] bs.2).take 5)

/-! ## Pipeline (`web_answer`, `answer_pipeline` in app.py) -/

/-- `web_answer` from app.py.  `results` is what the configured provider's
search returned; an empty result list or an empty synthesized draft yield an
empty answer.  The bullet-block extraction on the draft (the three
`re.search` patterns and `textwrap.shorten`, pure text formatting that no
claim touches) is abstracted by the oracle `fmt`; the concrete `"OK\n"`
prefix and the final `refine_text` of the source are kept. -/
def web_answer (fmt : List Char → List Char) (fetch unescape : List Char → List Char)
    (results : List WebResult) (q : List Char) : List Char × List (List Char) :=
  if results.isEmpty then ([], [])
  else
    let ts := synthesize_snippets fetch unescape results q
    if ts.1 = [] then ([], ts.2)
    else (refine_text (lit "OK\n" ++ fmt ts.1), ts.2)

/-- The canned fallback answer text of `answer_pipeline` (the two adjacent
Python string literals concatenated). -/
def fallbackMsg : List Char :=
  lit "Per questa richiesta servono alcuni dettagli (tipo solaio, luci, carichi, profili, spessori, vincoli). Possiamo dare un indirizzo prudente e poi validare col calcolo."

/-- `answer_pipeline` from app.py.  `web` is the `(text, sources)` outcome
of `web_answer`, which depends on network I/O and is therefore passed in:
the draft is kept only when non-empty and at least 60 characters long, the
Sinapsi rules are applied, an empty result is replaced by the refined
fallback message, and the sources footer is appended. -/
def answer_pipeline (rules : List Rule) (web : List Char × List (List Char))
    (q : List Char) : List Char :=
  let base := if web.1 ≠ [] ∧ 60 ≤ web.1.length then web.1 else []
  let res := sinapsi_apply rules q base
  let f := if res.1 = [] then refine_text fallbackMsg else res.1
  compose_final f web.2

/-! ## HTTP endpoints (`ask_get`, `ask_post` in app.py) -/

/-- The JSON reply of the two ask endpoints: the `ok` flag and the optional
`answer` and `error` string fields. -/
structure AskReply where
  ok : Bool
  answer : Option (List Char)
  error : Option (List Char)
deriving DecidableEq

/-- The canned empty-question answer of `GET /ask`. -/
def cannedEmpty : List Char :=
  lit "OK\n- **Domanda vuota**: inserisci una richiesta valida."

/-- `ask_get` from app.py (`GET /ask?q=...`).  The second component records
whether `answer_pipeline` (and with it the outbound web search) ran. -/
def ask_get (rules : List Rule) (web : List Char × List (List Char))
    (q : List Char) : AskReply × Bool :=
  let q := pyStrip q
  if q = [] then (⟨true, some cannedEmpty, none⟩, false)
  else (⟨true, some (answer_pipeline rules web q), none⟩, true)

/-- `ask_post` from app.py (`POST /api/ask`).  `bodyQ` is `body.get("q")`
of the decoded JSON body (`none` when the body is malformed or has no `q`
field).  The second component records whether `answer_pipeline` ran. -/
def ask_post (rules : List Rule) (web : List Char × List (List Char))
    (bodyQ : Option (List Char)) : AskReply × Bool :=
  let q := pyStrip (bodyQ.getD [])
  if q = [] then (⟨false, none, some (lit "Missing q")⟩, false)
  else (⟨true, some (answer_pipeline rules web q), none⟩, true)

/-! ## Wizard context formatting (front-end) -/

/-- The `#apply-wizard` click handler of the first unnamed script: each of
the nine fields is read, trimmed (`?.trim()`; the JS and Python whitespace
classes agree on ASCII), rendered with its label template when non-empty,
and the segments are joined by `", "`. -/
def applyWizardContext (h ss v cls passo dir slong t nr : List Char) : List Char :=
  List.intercalate (lit ", ")
    ((if pyStrip h = [] then [] else [lit "lamiera H" ++ pyStrip h]) ++
     (if pyStrip ss = [] then [] else [lit "soletta " ++ pyStrip ss ++ lit " mm"]) ++
     (if pyStrip v = [] then [] else [lit "V_L,Ed=" ++ pyStrip v ++ lit " kN/m"]) ++
     (if pyStrip cls = [] then [] else [lit "cls " ++ pyStrip cls]) ++
     (if pyStrip passo = [] then [] else [lit "passo gola " ++ pyStrip passo ++ lit " mm"]) ++
     (if pyStrip dir = [] then [] else [lit "lamiera " ++ pyStrip dir]) ++
     (if pyStrip slong = [] then [] else [lit "passo lungo trave " ++ pyStrip slong ++ lit " mm"]) ++
     (if pyStrip t = [] then [] else [lit "t=" ++ pyStrip t ++ lit " mm"]) ++
     (if pyStrip nr = [] then [] else [lit "nr=" ++ pyStrip nr]))

/-- `syncWizardToContext` of the second unnamed script for the `CTF_CALC`
schema: its six field values are used verbatim (`if (v)` with no trim),
rendered with the same templates, and joined by `", "`. -/
def syncWizardContextCTF (h ss v cls passo dir : List Char) : List Char :=
  List.intercalate (lit ", ")
    ((if h = [] then [] else [lit "lamiera H" ++ h]) ++
     (if ss = [] then [] else [lit "soletta " ++ ss ++ lit " mm"]) ++
     (if v = [] then [] else [lit "V_L,Ed=" ++ v ++ lit " kN/m"]) ++
     (if cls = [] then [] else [lit "cls " ++ cls]) ++
     (if passo = [] then [] else [lit "passo gola " ++ passo ++ lit " mm"]) ++
     (if dir = [] then [] else [lit "lamiera " ++ dir]))

/-! ## Lemmas about the string primitives -/

theorem head_dropWhile_false (p : Char → Bool) :
    ∀ (l : List Char) (c : Char) (t : List Char), l.dropWhile p = c :: t → p c = false := by
  intro l
  induction l with
  | nil => intro c t h; simp [List.dropWhile] at h
  | cons a l ih =>
    intro c t h
    by_cases hp : p a
    · rw [List.dropWhile_cons_of_pos hp] at h
      exact ih c t h
    · rw [List.dropWhile_cons_of_neg hp] at h
      cases h
      simpa using hp

theorem dropWhile_idem (p : Char → Bool) (l : List Char) :
    (l.dropWhile p).dropWhile p = l.dropWhile p := by
  cases h : l.dropWhile p with
  | nil => rfl
  | cons c t =>
    have hc : p c = false := head_dropWhile_false p l c t h
    exact List.dropWhile_cons_of_neg (by simp [hc])

theorem trimL_idem (l : List Char) : trimL (trimL l) = trimL l := dropWhile_idem pyWs l

theorem trimR_idem (l : List Char) : trimR (trimR l) = trimR l := by
  simp [trimR, List.reverse_reverse, dropWhile_idem]

theorem trimL_trimR (m : List Char) (hm : trimL m = m) : trimL (trimR m) = trimR m := by
  cases m with
  | nil => rfl
  | cons c t =>
    have hc : pyWs c = false := by
      by_cases h : pyWs c = true
      · exfalso
        have hlen := congrArg List.length hm
        rw [trimL, List.dropWhile_cons_of_pos h] at hlen
        have hle := (List.dropWhile_sublist (l := t) pyWs).length_le
        simp at hlen
        omega
      · simpa using h
    have hcn : ¬ pyWs c = true := by simp [hc]
    rw [trimR, List.reverse_cons, List.dropWhile_append]
    by_cases he : (t.reverse.dropWhile pyWs).isEmpty
    · simp only [he, if_pos]
      rw [List.dropWhile_cons_of_neg hcn]
      simp [trimL, List.dropWhile_cons_of_neg hcn]
    · simp only [he, if_neg, Bool.false_eq_true, not_false_iff]
      rw [List.reverse_append]
      simp [trimL, List.dropWhile_cons_of_neg hcn]

theorem pyStrip_idem (l : List Char) : pyStrip (pyStrip l) = pyStrip l := by
  show trimR (trimL (trimR (trimL l))) = trimR (trimL l)
  rw [trimL_trimR (trimL l) (trimL_idem l), trimR_idem]

theorem trimR_pyStrip (l : List Char) : trimR (pyStrip l) = pyStrip l := by
  show trimR (trimR (trimL l)) = trimR (trimL l)
  exact trimR_idem _

theorem pyStrip_nil : pyStrip ([] : List Char) = [] := rfl

theorem pyStrip_eq_nil_allWs (l : List Char) (h : pyStrip l = []) :
    ∀ c ∈ l, pyWs c = true := by
  intro c hc
  have h2 : (trimL l).reverse.dropWhile pyWs = [] := by
    have h1 : ((trimL l).reverse.dropWhile pyWs).reverse = [] := h
    simpa using congrArg List.reverse h1
  have h3 : ∀ x ∈ (trimL l).reverse, pyWs x := List.dropWhile_eq_nil_iff.mp h2
  have h4 : ∀ x ∈ trimL l, pyWs x := by
    intro x hx
    exact h3 x (by simpa using hx)
  have h5 : l.takeWhile pyWs ++ l.dropWhile pyWs = l := List.takeWhile_append_dropWhile pyWs l
  have h6 : c ∈ l.takeWhile pyWs ∨ c ∈ trimL l := by
    rw [← h5] at hc
    exact List.mem_append.mp hc
  cases h6 with
  | inl h7 => exact List.mem_takeWhile_imp h7
  | inr h7 => exact h4 c h7

theorem pyStrip_ne_nil (l : List Char) (c : Char) (hc : c ∈ l) (hw : pyWs c = false) :
    pyStrip l ≠ [] := by
  intro h
  have := pyStrip_eq_nil_allWs l h c hc
  rw [hw] at this
  exact Bool.false_ne_true this

theorem head?_dropWhile_false (p : Char → Bool) (l : List Char) (c : Char)
    (h : (l.dropWhile p).head? = some c) : p c = false := by
  cases hd : l.dropWhile p with
  | nil => rw [hd] at h; cases h
  | cons a t =>
    rw [hd] at h
    simp only [List.head?_cons, Option.some.injEq] at h
    rw [← h]
    exact head_dropWhile_false p l a t hd

theorem endsWithNL_pyStrip (a : List Char) : endsWithNL (pyStrip a) = false := by
  unfold endsWithNL
  cases hg : (pyStrip a).getLast? with
  | none => rfl
  | some c =>
    have hh : ((trimL a).reverse.dropWhile pyWs).head? = some c := by
      rw [← List.getLast?_reverse]
      exact hg
    have hc : pyWs c = false := head?_dropWhile_false pyWs (trimL a).reverse c hh
    have hcn : c ≠ '\n' := by
      intro h
      rw [h] at hc
      exact absurd hc (by decide)
    simp [hcn]

theorem takeLine_append (l : List Char) : (takeLine l).1 ++ (takeLine l).2 = l := by
  induction l with
  | nil => rfl
  | cons c rest ih =>
    by_cases h : c = '\n'
    · simp [takeLine, h]
    · simp [takeLine, h, ih]

theorem hasSub_append_right (pat a b : List Char) (h : hasSub pat (a ++ b) = false) :
    hasSub pat b = false := by
  induction a with
  | nil => exact h
  | cons c a ih =>
    rw [List.cons_append] at h
    simp only [hasSub, Bool.or_eq_false_iff] at h
    exact ih h.2

theorem hasSubCI_append_right (pat a b : List Char) (h : hasSubCI pat (a ++ b) = false) :
    hasSubCI pat b = false := by
  induction a with
  | nil => exact h
  | cons c a ih =>
    rw [List.cons_append] at h
    simp only [hasSubCI, Bool.or_eq_false_iff] at h
    exact ih h.2

/-! ## Lemmas about the refiner -/

theorem stripHAux_id (fuel : Nat) :
    ∀ l : List Char, hasSubCI (lit "ok") l = false → stripHAux fuel l = l := by
  induction fuel with
  | zero => intro l _; rfl
  | succ fuel ih =>
    intro l h
    cases l with
    | nil => rfl
    | cons c rest =>
      simp only [hasSubCI, Bool.or_eq_false_iff] at h
      have h2 : okHeaderRest (c :: rest) = none := by
        unfold okHeaderRest
        rw [h.1]
        simp
      have hta := takeLine_append (c :: rest)
      have h3 : hasSubCI (lit "ok") (takeLine (c :: rest)).2 = false := by
        apply hasSubCI_append_right (lit "ok") (takeLine (c :: rest)).1
        rw [hta]
        simp only [hasSubCI, Bool.or_eq_false_iff]
        exact h
      simp only [stripHAux, h2]
      rw [ih _ h3, hta]

theorem stripHeaders_id (l : List Char) (h : hasSubCI (lit "ok") l = false) :
    stripHeaders l = l := stripHAux_id l.length l h

theorem fontiBreakAux_id (fuel : Nat) :
    ∀ l : List Char, hasSub fontiMark l = false → fontiBreakAux fuel l = l := by
  induction fuel with
  | zero => intro l _; rfl
  | succ fuel ih =>
    intro l h
    cases l with
    | nil => rfl
    | cons c rest =>
      simp only [hasSub, Bool.or_eq_false_iff] at h
      simp only [fontiBreakAux, h.1]
      simp [ih rest h.2]

theorem fontiBreak_id (l : List Char) (h : hasSub fontiMark l = false) :
    fontiBreak l = l := fontiBreakAux_id l.length l h

theorem refine_strip (t : List Char) : pyStrip (refine_text t) = refine_text t := by
  simp only [refine_text]
  split
  · rfl
  · split
    · exact pyStrip_idem _
    · exact pyStrip_idem _

theorem lstartsWith_ecco_ne_nil (body : List Char)
    (h : lstartsWith (lit "ecco le informazioni") (lowerL body) = true) : body ≠ [] := by
  intro hb
  rw [hb] at h
  exact absurd h (by decide)

theorem refine_ne_nil (t : List Char) (h : t ≠ []) : refine_text t ≠ [] := by
  simp only [refine_text, if_neg h]
  split
  · next hg => exact lstartsWith_ecco_ne_nil _ hg
  · exact pyStrip_ne_nil _ 'E' (List.mem_append_left _ (List.mem_append_left _ (by decide)))
      (by decide)

/-- A refiner no-op lemma: text that is already stripped, begins
(case-insensitively) with `ecco le informazioni`, and contains neither the
substring `ok` (case-insensitively, so no header line can match) nor the
marker `**Fonti**` is returned unchanged. -/
theorem refine_noop (x : List Char)
    (h1 : pyStrip x = x)
    (h2 : hasSubCI (lit "ok") x = false)
    (h3 : hasSub fontiMark x = false)
    (h4 : lstartsWith (lit "ecco le informazioni") (lowerL x) = true) :
    refine_text x = x := by
  have hx : x ≠ [] := lstartsWith_ecco_ne_nil x h4
  simp only [refine_text, if_neg hx, stripHeaders_id x h2, fontiBreak_id x h3, h1, h4,
    if_pos]

/-! ## Lemmas about the rule applier -/

theorem sinapsiGo_skip (q base : List Char) (acc : Option (List Char))
    (pre l : List Rule) (hpre : ∀ r ∈ pre, r.pattern q = false) :
    sinapsiGo q base acc (pre ++ l) = sinapsiGo q base acc l := by
  induction pre with
  | nil => rfl
  | cons r pre ih =>
    have hr : r.pattern q = false := hpre r (by simp)
    rw [List.cons_append, sinapsiGo, hr]
    simp only [Bool.false_eq_true, if_false]
    exact ih (fun r h => hpre r (by simp [h]))

theorem sinapsiGo_override (q base : List Char) (acc : Option (List Char))
    (r : Rule) (rs : List Rule) (hm : r.pattern q = true) (ho : r.mode = lit "override") :
    sinapsiGo q base acc (r :: rs) = (refine_text r.answer, some r.id) := by
  rw [sinapsiGo, hm, ho]
  simp

theorem sinapsiGo_augment (q base : List Char) (acc : Option (List Char))
    (r : Rule) (rs : List Rule) (hm : r.pattern q = true) (ha : r.mode = lit "augment")
    (hb : pyStrip base ≠ []) :
    sinapsiGo q base acc (r :: rs) =
      (trimR (pyStrip base) ++ lit "\n\n" ++ pyStrip (refine_text r.answer), some r.id) := by
  rw [sinapsiGo, hm, ha]
  have h1 : ¬ (lit "augment" = lit "override") := by decide
  simp [h1, hb]

theorem sinapsiGo_augment_nil (q : List Char) (acc : Option (List Char))
    (r : Rule) (rs : List Rule) (hm : r.pattern q = true) (ha : r.mode = lit "augment") :
    sinapsiGo q [] acc (r :: rs) = (pyStrip (refine_text r.answer), some r.id) := by
  rw [sinapsiGo, hm, ha]
  have h1 : ¬ (lit "augment" = lit "override") := by decide
  simp [h1, pyStrip_nil]

theorem sinapsiGo_postscript (q base : List Char) (acc : Option (List Char))
    (r : Rule) (rs : List Rule) (hm : r.pattern q = true) (hp : r.mode = lit "postscript") :
    sinapsiGo q base acc (r :: rs) =
      (pyStrip base ++ lit "\n\n*Nota tecnica (Sinapsi)*\n" ++ pyStrip (refine_text r.answer),
        some r.id) := by
  rw [sinapsiGo, hm, hp]
  have h1 : ¬ (lit "postscript" = lit "override") := by decide
  have h2 : ¬ (lit "postscript" = lit "augment") := by decide
  simp [h1, h2]

theorem sinapsiGo_other (q base : List Char) (acc : Option (List Char))
    (r : Rule) (rs : List Rule) (hm : r.pattern q = true)
    (h1 : r.mode ≠ lit "override") (h2 : r.mode ≠ lit "augment")
    (h3 : r.mode ≠ lit "postscript") :
    sinapsiGo q base acc (r :: rs) = sinapsiGo q base (some r.id) rs := by
  rw [sinapsiGo, hm]
  simp [h1, h2, h3]

theorem sinapsiGo_nomatch (q base : List Char) (acc : Option (List Char))
    (r : Rule) (rs : List Rule) (hm : r.pattern q = false) :
    sinapsiGo q base acc (r :: rs) = sinapsiGo q base acc rs := by
  rw [sinapsiGo, hm]
  simp

/-- For an empty base draft, the text produced by the rule scan is either
empty or survives a final strip non-empty. -/
theorem sinapsiGo_nil_base (q : List Char) :
    ∀ (rules : List Rule) (acc : Option (List Char)),
      (sinapsiGo q [] acc rules).1 = [] ∨ pyStrip (sinapsiGo q [] acc rules).1 ≠ [] := by
  intro rules
  induction rules with
  | nil => intro acc; left; rfl
  | cons r rs ih =>
    intro acc
    by_cases hm : r.pattern q = true
    · by_cases ho : r.mode = lit "override"
      · rw [sinapsiGo_override q [] acc r rs hm ho]
        by_cases hra : r.answer = []
        · left
          simp [hra, refine_text]
        · right
          rw [refine_strip]
          exact refine_ne_nil _ hra
      · by_cases ha : r.mode = lit "augment"
        · rw [sinapsiGo_augment_nil q acc r rs hm ha]
          by_cases hra : r.answer = []
          · left
            simp [hra, refine_text, pyStrip_nil]
          · right
            rw [pyStrip_idem, refine_strip]
            exact refine_ne_nil _ hra
        · by_cases hp : r.mode = lit "postscript"
          · rw [sinapsiGo_postscript q [] acc r rs hm hp]
            right
            apply pyStrip_ne_nil _ '*'
            · rw [pyStrip_nil]
              simp only [List.nil_append]
              exact List.mem_append_left _ (by decide)
            · decide
          · rw [sinapsiGo_other q [] acc r rs hm ho ha hp]
            exact ih (some r.id)
    · rw [Bool.not_eq_true] at hm
      rw [sinapsiGo_nomatch q [] acc r rs hm]
      exact ih acc

/-! ## Lemmas about the composer -/

theorem compose_final_nil_sources (a : List Char) : compose_final a [] = pyStrip a := rfl

/-- Closed form of the composer for a non-empty source list. -/
theorem compose_final_eq (a : List Char) (srcs : List (List Char)) (h : srcs ≠ []) :
    compose_final a srcs =
      pyStrip a ++
        (if hasSub fontiMark (pyStrip a) then lit "\n" else lit "\n\n") ++
        fontiMark ++ lit "\n" ++
        List.intercalate (lit "\n") (srcs.map (fun u => lit "- " ++ u)) ++ lit "\n" := by
  simp only [compose_final, if_neg h]
  split
  · next hf =>
    rw [pyStrip_idem, endsWithNL_pyStrip]
    simp [hf, List.append_assoc]
  · next hf =>
    simp only [Bool.not_eq_true] at hf
    simp [hf, List.append_assoc]

/-! ## Lemmas about the search adapter and the synthesizer -/

theorem brave_search_allowed (key : Option (List Char)) (status : Nat)
    (items : Option (List WebItem)) (prefer : List (List Char)) :
    ∀ s ∈ brave_search key status items prefer, allowed_domain s.url prefer = true := by
  intro s hs
  unfold brave_search at hs
  split at hs
  · exact absurd hs (by simp)
  · split at hs
    · exact absurd hs (by simp)
    · split at hs
      · exact absurd hs (by simp)
      · obtain ⟨i, hi, hd⟩ := List.mem_map.mp hs
        rw [← hd]
        exact (List.mem_filter.mp hi).2

theorem bing_search_allowed (key : Option (List Char)) (status : Nat)
    (items : Option (List WebItem)) (prefer : List (List Char)) :
    ∀ s ∈ bing_search key status items prefer, allowed_domain s.url prefer = true := by
  intro s hs
  unfold bing_search at hs
  split at hs
  · exact absurd hs (by simp)
  · split at hs
    · exact absurd hs (by simp)
    · split at hs
      · exact absurd hs (by simp)
      · obtain ⟨i, hi, hd⟩ := List.mem_map.mp hs
        rw [← hd]
        exact (List.mem_filter.mp hi).2

theorem foldl_synthStep_sources (fetch unescape : List Char → List Char) :
    ∀ (snips : List WebResult) (acc : List (List Char) × List (List Char)) (u : List Char),
      u ∈ (snips.foldl (synthStep fetch unescape) acc).2 →
        u ∈ acc.2 ∨ u ∈ snips.map (fun s => s.url) := by
  intro snips
  induction snips with
  | nil => intro acc u h; left; exact h
  | cons s rest ih =>
    intro acc u h
    rw [List.foldl_cons] at h
    rcases ih _ u h with h1 | h1
    · simp only [synthStep] at h1
      by_cases hb : (if clean_html_text unescape (fetch s.url) = [] then
          clean_html_text unescape s.snippet else clean_html_text unescape (fetch s.url)) = []
      · rw [if_pos hb] at h1
        left; exact h1
      · rw [if_neg hb] at h1
        rcases List.mem_append.mp h1 with h2 | h2
        · left; exact h2
        · right
          simp only [List.mem_singleton] at h2
          simp [h2]
    · right
      simp [h1]

theorem pyDedupAux_sub :
    ∀ (l seen : List (List Char)) (u : List Char), u ∈ pyDedupAux seen l → u ∈ l := by
  intro l
  induction l with
  | nil => intro seen u h; exact absurd h (by simp [pyDedupAux])
  | cons v rest ih =>
    intro seen u h
    rw [pyDedupAux] at h
    split at h
    · exact List.mem_cons_of_mem _ (ih _ _ h)
    · rcases List.mem_cons.mp h with h1 | h1
      · simp [h1]
      · exact List.mem_cons_of_mem _ (ih _ _ h1)

theorem synthesize_sources_sub (fetch unescape : List Char → List Char)
    (snips : List WebResult) (q u : List Char)
    (h : u ∈ (synthesize_snippets fetch unescape snips q).2) :
    u ∈ snips.map (fun s => s.url) := by
  simp only [synthesize_snippets] at h
  split at h
  · exact absurd h (by simp)
  · split at h
    · rcases foldl_synthStep_sources fetch unescape snips ([], []) u h with h1 | h1
      · exact absurd h1 (by simp)
      · exact h1
    · have h2 := List.mem_of_mem_take h
      have h3 := pyDedupAux_sub _ [] u h2
      rcases foldl_synthStep_sources fetch unescape snips ([], []) u h3 with h1 | h1
      · exact absurd h1 (by simp)
      · exact h1

/-! ## Lemmas about the pipeline -/

theorem answer_pipeline_nil_web (rules : List Rule) (q : List Char) :
    answer_pipeline rules ([], []) q ≠ [] := by
  simp only [answer_pipeline, sinapsi_apply]
  have hbase : (if ([] : List Char) ≠ [] ∧ 60 ≤ ([] : List Char).length
      then ([] : List Char) else []) = [] := by simp
  rw [hbase]
  rcases sinapsiGo_nil_base q rules none with h | h
  · rw [if_pos h, compose_final_nil_sources, refine_strip]
    exact refine_ne_nil _ (by decide)
  · have h1 : (sinapsiGo q [] none rules).1 ≠ [] := by
      intro h2
      rw [h2, pyStrip_nil] at h
      exact h rfl
    rw [if_neg h1, compose_final_nil_sources]
    exact h

/-! ## Claim C1 -/

/-- An override rule matching every question, used as concrete input. -/
def c1CtrRule : Rule :=
  ⟨lit "r1", fun _ => true, lit "override", lit "it", lit "ciao"⟩

/-- Claim C1, counterexample: with an `override` rule matched and a web
search that produced a source URL, the pipeline answer is not the refined
rule text — `compose_final` has appended the sources footer to it. -/
theorem c1_override_counterexample :
    answer_pipeline [c1CtrRule] ([], [lit "http://tecnaria.com"]) (lit "x") ≠
      refine_text c1CtrRule.answer := by decide

/-- Claim C1 (amended): when the first rule matching the question has mode
`override`, the pipeline discards the web draft entirely and answers with
the refined rule text, to which `compose_final` appends the sources footer;
the answer equals the refined rule text exactly when the web search yielded
no sources. -/
theorem c1_override_amended (rules pre post : List Rule) (r : Rule)
    (web : List Char × List (List Char)) (q : List Char)
    (hr : rules = pre ++ r :: post)
    (hpre : ∀ p ∈ pre, p.pattern q = false)
    (hm : r.pattern q = true)
    (ho : r.mode = lit "override")
    (ha : r.answer ≠ []) :
    answer_pipeline rules web q = compose_final (refine_text r.answer) web.2 ∧
      (web.2 = [] → answer_pipeline rules web q = refine_text r.answer) := by
  have hne := refine_ne_nil r.answer ha
  have hmain : answer_pipeline rules web q = compose_final (refine_text r.answer) web.2 := by
    simp only [answer_pipeline, sinapsi_apply, hr,
      sinapsiGo_skip q _ none pre _ hpre, sinapsiGo_override q _ none r post hm ho]
    rw [if_neg hne]
  refine ⟨hmain, fun hw => ?_⟩
  rw [hmain, hw, compose_final_nil_sources, refine_strip]

/-- A concrete override rule keyed on `p560`. -/
def c1WitRule : Rule :=
  ⟨lit "r2", fun s => hasSub (lit "p560") (lowerL s), lit "override", lit "it",
    lit "Serve solo la formazione interna."⟩

/-- Witness for C1 at a concrete rule set, question and web outcome. -/
theorem c1_override_amended_witness :
    answer_pipeline [c1WitRule] ([], [lit "http://tecnaria.com"]) (lit "Uso della P560") =
      compose_final (refine_text c1WitRule.answer) [lit "http://tecnaria.com"] ∧
      (([lit "http://tecnaria.com"] : List (List Char)) = [] →
        answer_pipeline [c1WitRule] ([], [lit "http://tecnaria.com"]) (lit "Uso della P560") =
          refine_text c1WitRule.answer) :=
  c1_override_amended [c1WitRule] [] [] c1WitRule ([], [lit "http://tecnaria.com"])
    (lit "Uso della P560") rfl (by simp) (by decide) rfl (by decide)

/-! ## Claim C2 -/

/-- Claim C2, counterexample: a POST with an empty (whitespace-only) `q`
does not get the canned empty-question message of the GET endpoint — it
gets `ok = false` with error `Missing q` and no answer field at all. -/
theorem c2_empty_question_counterexample :
    (ask_post [] ([], []) (some (lit " "))).1.answer ≠ some cannedEmpty ∧
      (ask_post [] ([], []) (some (lit " "))).1 ≠ (ask_get [] ([], []) (lit " ")).1 := by
  decide

/-- Claim C2 (amended): on an empty or whitespace-only question neither
endpoint runs the pipeline (no outbound search call); the GET endpoint
returns the fixed canned empty-question message, while the POST endpoint
returns a structured failure with `ok = false` and error `Missing q`. -/
theorem c2_empty_question_amended (rules : List Rule) (web : List Char × List (List Char))
    (q : List Char) (bq : Option (List Char))
    (hq : pyStrip q = []) (hbq : pyStrip (bq.getD []) = []) :
    ask_get rules web q = (⟨true, some cannedEmpty, none⟩, false) ∧
      ask_post rules web bq = (⟨false, none, some (lit "Missing q")⟩, false) := by
  constructor
  · simp [ask_get, hq]
  · simp [ask_post, hbq]

/-- Witness for C2 at concrete whitespace-only questions. -/
theorem c2_empty_question_amended_witness :
    ask_get [] ([], []) (lit "  ") = (⟨true, some cannedEmpty, none⟩, false) ∧
      ask_post [] ([], []) (some (lit " ")) = (⟨false, none, some (lit "Missing q")⟩, false) :=
  c2_empty_question_amended [] ([], []) (lit "  ") (some (lit " ")) (by decide) (by decide)

/-! ## Claim C3 -/

/-- Claim C3, counterexample: `refine_text "**Fonti**\n- a"` is an output of
the refiner and starts with the canonical lead sentence, yet refining it
again is not a no-op — the `replace` step inserts two more newlines in
front of the `**Fonti**` marker on every pass. -/
theorem c3_refine_idem_counterexample :
    lstartsWith leadText (refine_text (lit "**Fonti**\n- a")) = true ∧
      refine_text (refine_text (refine_text (lit "**Fonti**\n- a"))) ≠
        refine_text (refine_text (lit "**Fonti**\n- a")) := by
  decide

/-- Claim C3 (amended): the refiner is a no-op (hence idempotent) on
stripped text that begins case-insensitively with the lead-detection prefix
`ecco le informazioni` and contains neither the marker `**Fonti**` nor the
letters `ok` (so no header line can match); on text containing the marker,
each pass inserts two more newlines before it. -/
theorem c3_refine_idem_amended (x : List Char)
    (h1 : pyStrip x = x)
    (h2 : hasSubCI (lit "ok") x = false)
    (h3 : hasSub fontiMark x = false)
    (h4 : lstartsWith (lit "ecco le informazioni") (lowerL x) = true) :
    refine_text x = x ∧ refine_text (refine_text x) = refine_text x := by
  have h := refine_noop x h1 h2 h3 h4
  exact ⟨h, by rw [h, h]⟩

/-- Witness for C3 at a concrete already-refined text. -/
theorem c3_refine_idem_amended_witness :
    refine_text (lit "ecco le informazioni sui connettori richiesti.") =
        lit "ecco le informazioni sui connettori richiesti." ∧
      refine_text (refine_text (lit "ecco le informazioni sui connettori richiesti.")) =
        refine_text (lit "ecco le informazioni sui connettori richiesti.") :=
  c3_refine_idem_amended (lit "ecco le informazioni sui connettori richiesti.")
    (by decide) (by decide) (by decide) (by decide)

/-! ## Claim C4 -/

/-- Claim C4, counterexample: when the answer body already contains the
`**Fonti**` marker, the composer appends the heading again, so the composed
output contains the marker twice, not exactly once. -/
theorem c4_compose_counterexample :
    hasSub fontiMark (lit "testo\n\n**Fonti**\n- vecchio") = true ∧
      countSub fontiMark
        (compose_final (lit "testo\n\n**Fonti**\n- vecchio") [lit "http://u"]) = 2 := by
  decide

/-- Claim C4 (amended): for a non-empty source list the composer appends a
footer with one `- url` line per source under a fresh `**Fonti**` heading;
when the marker already occurs in the stripped body the footer follows a
single newline (and the output contains the marker once more than the
body), otherwise it follows a blank line. -/
theorem c4_compose_amended (a : List Char) (srcs : List (List Char)) (h : srcs ≠ []) :
    compose_final a srcs =
      pyStrip a ++
        (if hasSub fontiMark (pyStrip a) then lit "\n" else lit "\n\n") ++
        fontiMark ++ lit "\n" ++
        List.intercalate (lit "\n") (srcs.map (fun u => lit "- " ++ u)) ++ lit "\n" :=
  compose_final_eq a srcs h

/-- Witness for C4 at a concrete body and source list. -/
theorem c4_compose_amended_witness :
    compose_final (lit "corpo") [lit "http://u"] =
      pyStrip (lit "corpo") ++
        (if hasSub fontiMark (pyStrip (lit "corpo")) then lit "\n" else lit "\n\n") ++
        fontiMark ++ lit "\n" ++
        List.intercalate (lit "\n") ([lit "http://u"].map (fun u => lit "- " ++ u)) ++
        lit "\n" :=
  c4_compose_amended (lit "corpo") [lit "http://u"] (by decide)

/-! ## Claim C5 -/

/-- Claim C5 (confirmed): both adapters keep only results whose host
suffix-matches an allow-listed domain (so only such URLs are ever fetched
by the synthesizer, which fetches exactly the URLs of the filtered
results), and every URL in the synthesized sources list passes
`allowed_domain` for the configured allow-list. -/
theorem c5_allowlist_filter (key : Option (List Char)) (status : Nat)
    (items : Option (List WebItem)) (prefer : List (List Char))
    (fetch unescape : List Char → List Char) (q : List Char) :
    (∀ s ∈ brave_search key status items prefer, allowed_domain s.url prefer = true) ∧
      (∀ s ∈ bing_search key status items prefer, allowed_domain s.url prefer = true) ∧
      (∀ u ∈ (synthesize_snippets fetch unescape
          (brave_search key status items prefer) q).2,
        allowed_domain u prefer = true) ∧
      (∀ u ∈ (synthesize_snippets fetch unescape
          (bing_search key status items prefer) q).2,
        allowed_domain u prefer = true) := by
  refine ⟨brave_search_allowed _ _ _ _, bing_search_allowed _ _ _ _, ?_, ?_⟩
  · intro u hu
    obtain ⟨s, hs, hd⟩ := List.mem_map.mp (synthesize_sources_sub fetch unescape _ q u hu)
    rw [← hd]
    exact brave_search_allowed key status items prefer s hs
  · intro u hu
    obtain ⟨s, hs, hd⟩ := List.mem_map.mp (synthesize_sources_sub fetch unescape _ q u hu)
    rw [← hd]
    exact bing_search_allowed key status items prefer s hs

/-- Witness for C5: a concrete allow-listed URL cited by the synthesizer
indeed passes the domain filter. -/
theorem c5_allowlist_filter_witness :
    allowed_domain (lit "https://www.tecnaria.com/ctf") [lit "tecnaria.com"] = true :=
  (c5_allowlist_filter (some (lit "k")) 200
      (some [⟨lit "t", lit "https://www.tecnaria.com/ctf", lit "s"⟩])
      [lit "tecnaria.com"] (fun _ => lit "pagina con testo") (fun l => l)
      (lit "q")).2.2.1
    (lit "https://www.tecnaria.com/ctf") (by decide)

/-! ## Claim C6 -/

/-- Claim C6 (confirmed): with no API key configured both search adapters
return the empty list (not an error), `web_answer` on an empty result list
returns an empty draft and no sources, the pipeline then answers with the
refined canned fallback message when no rule matches, and for every rule
set the pipeline answer is non-empty. -/
theorem c6_no_key_fallback (status : Nat) (items : Option (List WebItem))
    (prefer : List (List Char)) (fmt fetch unescape : List Char → List Char)
    (rules : List Rule) (q q2 : List Char) :
    brave_search none status items prefer = [] ∧
      bing_search none status items prefer = [] ∧
      web_answer fmt fetch unescape [] q2 = ([], []) ∧
      answer_pipeline [] ([], []) q = refine_text fallbackMsg ∧
      answer_pipeline rules ([], []) q ≠ [] := by
  refine ⟨rfl, rfl, rfl, ?_, answer_pipeline_nil_web rules q⟩
  have h1 : answer_pipeline [] ([], []) q = compose_final (refine_text fallbackMsg) [] := by
    simp [answer_pipeline, sinapsi_apply, sinapsiGo]
  rw [h1, compose_final_nil_sources, refine_strip]

/-- Witness for C6 at a concrete transport outcome and question. -/
theorem c6_no_key_fallback_witness :
    brave_search none 200 (some []) [] = [] ∧
      bing_search none 200 (some []) [] = [] ∧
      web_answer (fun l => l) (fun l => l) (fun l => l) [] (lit "y") = ([], []) ∧
      answer_pipeline [] ([], []) (lit "x") = refine_text fallbackMsg ∧
      answer_pipeline [] ([], []) (lit "x") ≠ [] :=
  c6_no_key_fallback 200 (some []) [] (fun l => l) (fun l => l) (fun l => l) []
    (lit "x") (lit "y")

/-! ## Claim C7 -/

/-- Claim C7, counterexample: a JSON body carrying the fields
`question`/`mode`/`context` but no `q` field is treated as an empty
question by the POST endpoint, which answers with `ok = false`, error
`Missing q`, and no `answer` field at all. -/
theorem c7_post_api_counterexample :
    (ask_post [] ([], []) none).1.answer = none ∧
      (ask_post [] ([], []) none).1.ok = false ∧
      (ask_post [] ([], []) none).1.error = some (lit "Missing q") := by
  decide

/-- Claim C7 (amended): the POST endpoint reads the single body field `q`
(there are no `question`, `mode` or `context` fields); for a non-blank `q`
it returns `ok = true` with an `answer` string and no attachments or meta,
and the GET endpoint with the same question string returns exactly the same
reply. -/
theorem c7_post_api_amended (rules : List Rule) (web : List Char × List (List Char))
    (q : List Char) (hq : pyStrip q ≠ []) :
    ask_post rules web (some q) =
      (⟨true, some (answer_pipeline rules web (pyStrip q)), none⟩, true) ∧
      ask_get rules web q = ask_post rules web (some q) := by
  constructor
  · simp [ask_post, hq]
  · simp [ask_get, ask_post, hq]

/-- Witness for C7 at a concrete question. -/
theorem c7_post_api_amended_witness :
    ask_post [] ([], []) (some (lit "ciao")) =
      (⟨true, some (answer_pipeline [] ([], []) (pyStrip (lit "ciao"))), none⟩, true) ∧
      ask_get [] ([], []) (lit "ciao") = ask_post [] ([], []) (some (lit "ciao")) :=
  c7_post_api_amended [] ([], []) (lit "ciao") (by decide)

/-! ## Claim C8 -/

/-- Claim C8 (confirmed): when the first rule matching the question has
mode `augment` and the base draft is non-empty (and, as for every draft the
pipeline produces, already stripped), the resulting text is the draft
first, a blank line, then the refined rule answer. -/
theorem c8_augment_appends (rules pre post : List Rule) (r : Rule) (q base : List Char)
    (hr : rules = pre ++ r :: post)
    (hpre : ∀ p ∈ pre, p.pattern q = false)
    (hm : r.pattern q = true)
    (ha : r.mode = lit "augment")
    (hb1 : pyStrip base = base) (hb2 : base ≠ []) :
    (sinapsi_apply rules q base).1 =
      base ++ lit "\n\n" ++ pyStrip (refine_text r.answer) := by
  rw [hr, sinapsi_apply, sinapsiGo_skip q base none pre _ hpre,
    sinapsiGo_augment q base none r post hm ha (by rw [hb1]; exact hb2)]
  rw [trimR_pyStrip, hb1]

/-- A concrete augment rule keyed on `ctf`. -/
def c8WitRule : Rule :=
  ⟨lit "a1", fun s => hasSub (lit "ctf") (lowerL s), lit "augment", lit "it",
    lit "Nota aggiuntiva."⟩

/-- Witness for C8 at a concrete rule set, question and draft. -/
theorem c8_augment_appends_witness :
    (sinapsi_apply [c8WitRule] (lit "densita CTF") (lit "Bozza dal web.")).1 =
      lit "Bozza dal web." ++ lit "\n\n" ++ pyStrip (refine_text c8WitRule.answer) :=
  c8_augment_appends [c8WitRule] [] [] c8WitRule (lit "densita CTF") (lit "Bozza dal web.")
    rfl (by simp) (by decide) rfl (by decide) (by decide)

/-! ## Claim C9 -/

/-- Claim C9, counterexample: the schema-based sync handler of the second
unnamed script does not trim field values — a sheet-height value `" 55"`
is rendered as `lamiera H 55`, not as the trimmed `lamiera H55`. -/
theorem c9_wizard_counterexample :
    syncWizardContextCTF (lit " 55") [] [] [] [] [] = lit "lamiera H 55" ∧
      syncWizardContextCTF (lit " 55") [] [] [] [] [] ≠ lit "lamiera H55" := by
  decide

/-- Claim C9 (amended): wizard formatting is a deterministic function of
the field values with the exact label templates, empty values omitted and
segments joined by `", "`; the apply-wizard handler trims every value
(formatting is invariant under pre-trimming), while the second script's
sync handler uses the values verbatim; on the claimed concrete inputs both
compose exactly `lamiera H55, V_L,Ed=150 kN/m`. -/
theorem c9_wizard_amended :
    (∀ h ss v cls passo dir slong t nr : List Char,
      applyWizardContext h ss v cls passo dir slong t nr =
        applyWizardContext (pyStrip h) (pyStrip ss) (pyStrip v) (pyStrip cls)
          (pyStrip passo) (pyStrip dir) (pyStrip slong) (pyStrip t) (pyStrip nr)) ∧
      applyWizardContext (lit "55") [] (lit "150") [] [] [] [] [] [] =
        lit "lamiera H55, V_L,Ed=150 kN/m" ∧
      applyWizardContext (lit " 55 ") [] (lit " 150 ") [] [] [] [] [] [] =
        lit "lamiera H55, V_L,Ed=150 kN/m" ∧
      syncWizardContextCTF (lit "55") [] (lit "150") [] [] [] =
        lit "lamiera H55, V_L,Ed=150 kN/m" := by
  refine ⟨?_, by decide, by decide, by decide⟩
  intro h ss v cls passo dir slong t nr
  simp only [applyWizardContext, pyStrip_idem]

/-- Witness for C9: the trim-invariance applied at a concrete input. -/
theorem c9_wizard_amended_witness :
    applyWizardContext (lit " 55") [] (lit "150") [] [] [] [] [] [] =
      applyWizardContext (pyStrip (lit " 55")) (pyStrip []) (pyStrip (lit "150"))
        (pyStrip []) (pyStrip []) (pyStrip []) (pyStrip []) (pyStrip []) (pyStrip []) :=
  c9_wizard_amended.1 (lit " 55") [] (lit "150") [] [] [] [] [] []

/-! ## Claim C10 -/

/-- The `applied_id` accumulation of `sinapsi_apply`: the id of the last
rule whose pattern matched the question, `none` when no rule matched. -/
def lastMatchId (rules : List Rule) (q : List Char) : Option (List Char) :=
  rules.foldl (fun acc r => if r.pattern q then some r.id else acc) none

theorem foldl_lastMatch_isSome (q : List Char) :
    ∀ (rs : List Rule) (acc : Option (List Char)), acc.isSome = true →
      (rs.foldl (fun acc r => if r.pattern q then some r.id else acc) acc).isSome = true := by
  intro rs
  induction rs with
  | nil => intro acc h; exact h
  | cons r rest ih =>
    intro acc h
    rw [List.foldl_cons]
    by_cases hp : r.pattern q
    · exact ih _ (by simp [hp])
    · exact ih _ (by simp [hp, h])

theorem foldl_lastMatch_mem (q : List Char) :
    ∀ (rs : List Rule) (acc : Option (List Char)) (r : Rule), r ∈ rs → r.pattern q = true →
      (rs.foldl (fun acc r => if r.pattern q then some r.id else acc) acc).isSome = true := by
  intro rs
  induction rs with
  | nil => intro acc r h; exact absurd h (by simp)
  | cons r0 rest ih =>
    intro acc r hmem hp
    rw [List.foldl_cons]
    rcases List.mem_cons.mp hmem with h1 | h1
    · subst h1
      rw [hp]
      exact foldl_lastMatch_isSome q rest _ (by simp)
    · exact ih _ r h1 hp

theorem sinapsiGo_all_unrecognized (q base : List Char) :
    ∀ (rules : List Rule) (acc : Option (List Char)),
      (∀ r ∈ rules, r.pattern q = true →
        r.mode ≠ lit "override" ∧ r.mode ≠ lit "augment" ∧ r.mode ≠ lit "postscript") →
      sinapsiGo q base acc rules =
        (base, rules.foldl (fun acc r => if r.pattern q then some r.id else acc) acc) := by
  intro rules
  induction rules with
  | nil => intro acc _; rfl
  | cons r rs ih =>
    intro acc hall
    rw [List.foldl_cons]
    by_cases hp : r.pattern q = true
    · obtain ⟨h1, h2, h3⟩ := hall r (by simp) hp
      rw [sinapsiGo_other q base acc r rs hp h1 h2 h3, hp]
      simp only [if_pos]
      exact ih _ (fun r h => hall r (by simp [h]))
    · rw [Bool.not_eq_true] at hp
      rw [sinapsiGo_nomatch q base acc r rs hp, hp]
      simp only [Bool.false_eq_true, if_false]
      exact ih _ (fun r h => hall r (by simp [h]))

/-- Claim C10 (confirmed): a matched rule with an unrecognized mode does
not stop the scan; when every matched rule has an unrecognized mode the
base draft is returned unchanged, while the reported applied-rule id is
that of the last pattern-matched rule — in particular not `none` as soon
as any rule matched, even though no rule text was applied. -/
theorem c10_unrecognized_mode (rules : List Rule) (q base : List Char)
    (hall : ∀ r ∈ rules, r.pattern q = true →
      r.mode ≠ lit "override" ∧ r.mode ≠ lit "augment" ∧ r.mode ≠ lit "postscript") :
    sinapsi_apply rules q base = (base, lastMatchId rules q) ∧
      (∀ r ∈ rules, r.pattern q = true → (lastMatchId rules q).isSome = true) := by
  constructor
  · exact sinapsiGo_all_unrecognized q base rules none hall
  · intro r hmem hp
    exact foldl_lastMatch_mem q rules none r hmem hp

/-- Two rules with unrecognized modes, both matching concrete questions. -/
def c10Rules : List Rule :=
  [⟨lit "w1", fun s => hasSub (lit "a") s, lit "annotate", lit "it", lit "uno"⟩,
   ⟨lit "w2", fun s => hasSub (lit "b") s, lit "mystery", lit "it", lit "due"⟩]

/-- Witness for C10: with both unrecognized rules matching, the draft is
returned unchanged and the reported id is that of the last match. -/
theorem c10_unrecognized_mode_witness :
    sinapsi_apply c10Rules (lit "ab") (lit "bozza") =
        (lit "bozza", lastMatchId c10Rules (lit "ab")) ∧
      (∀ r ∈ c10Rules, r.pattern (lit "ab") = true →
        (lastMatchId c10Rules (lit "ab")).isSome = true) :=
  c10_unrecognized_mode c10Rules (lit "ab") (lit "bozza") (by decide)

end Tecnaria
